import Mathlib

/-!
Verification of the `LVISInferenceMapperWithGT.__call__` dataset mapper
(`src/datasets/dataset_mappers/lvis_dataset_mapper_with_gt.py`, lines 154-226).

The mapper takes one dataset record (a Python dict), deep-copies it, loads the
image, validates declared sizes, applies the configured augmentations, decodes
and merges every instance annotation into a dense mask, re-applies the same
geometric transform to each mask, stacks masks/classes/boxes into an
`Instances` aggregate, and stores "image" and "instances" back into the dict.

External collaborators (image reader, augmentation engine, RLE codec,
`BitMasks`, `check_image_size`) are not part of the repository source; they are
modelled from the specification's described contracts and marked as such in
their doc comments.  Everything else is translated from the Python source.
-/

set_option maxHeartbeats 1000000

namespace LVISMapper

/-- A dense 2D mask: rows of pixel values.  The code stores `uint8` pixels;
values are kept as `Nat` with an explicit `% 256` where the code downcasts. -/
abbrev Mask := List (List Nat)

/-- A decoded image: height x width x channels of pixel values. -/
abbrev Img := List (List (List Nat))

/-- Modelled from the spec: the Mask Codec (external
`pycocotools.mask.frPyObjects` / `decode`) is abstracted away: an annotation
payload stands directly for the list of binary part masks its decoding yields
at the record's declared height/width. -/
abbrev AnnPayload := List Mask

/-- A bounding box `(x0, y0, x1, y1)` in pixel coordinates. -/
abbrev Box := Nat × Nat × Nat × Nat

/-- Height (number of rows) of an image. -/
def imgH (i : Img) : Nat := i.length

/-- Width (length of the first row) of an image. -/
def imgW (i : Img) : Nat := (i.headD []).length

/-- Height (number of rows) of a mask. -/
def maskH (m : Mask) : Nat := m.length

/-- Width (length of the first row) of a mask. -/
def maskW (m : Mask) : Nat := (m.headD []).length

/-- Pixel access with numpy-out-of-range reading as background 0. -/
def pixel (m : Mask) (r c : Nat) : Nat := (m.getD r []).getD c 0

/-- Elementwise numpy `+` on two masks of the same shape. -/
def addMask (a b : Mask) : Mask :=
  List.zipWith (fun r s => List.zipWith (· + ·) r s) a b

/-- An all-background mask of the given shape. -/
def zeroMask (h w : Nat) : Mask := List.replicate h (List.replicate w 0)

/-- Lines 182-186 of the source: `rle = mask.frPyObjects(...); m = mask.decode(rle);
m = np.sum(m, axis=2); m = m.astype(np.uint8)` — the decoded part masks are
summed elementwise and every pixel is then downcast to `uint8` (mod 256).
Note that there is no `> 0` binarization at this step. -/
def mergeParts (h w : Nat) (parts : List Mask) : Mask :=
  ((parts.foldl addMask (zeroMask h w)).map (fun row => row.map (· % 256)))

/-- Modelled from the spec: the external `BitMasks` wrapper stores mask tensors
as booleans (`tensor.to(torch.bool)`), i.e. every nonzero pixel becomes 1. -/
def toBool (m : Mask) : Mask :=
  m.map (fun row => row.map (fun v => if v = 0 then 0 else 1))

/-- Columns of a mask that contain at least one nonzero pixel, in increasing
order (numpy `torch.any` over rows followed by `torch.where`). -/
def nzCols (m : Mask) : List Nat :=
  (List.range (maskW m)).filter (fun c => m.any (fun row => decide (row.getD c 0 ≠ 0)))

/-- Rows of a mask that contain at least one nonzero pixel, in increasing
order. -/
def nzRows (m : Mask) : List Nat :=
  (List.range (maskH m)).filter (fun r => (m.getD r []).any (fun v => decide (v ≠ 0)))

/-- Maximum of a list of naturals (0 for the empty list). -/
def listMax (l : List Nat) : Nat := l.foldl max 0

/-- Modelled from the spec: the external `BitMasks.get_bounding_boxes` — the
tight pixel-extent box `(min_col, min_row, max_col + 1, max_row + 1)` of the
nonzero pixels; a mask with no nonzero pixel keeps the zero-initialized
degenerate box `(0, 0, 0, 0)`. -/
def maskBox (m : Mask) : Box :=
  if (nzCols m).isEmpty || (nzRows m).isEmpty then (0, 0, 0, 0)
  else (( nzCols m).headD 0, (nzRows m).headD 0,
        listMax (nzCols m) + 1, listMax (nzRows m) + 1)

/-- Line 176 of the source: `image.transpose(2, 0, 1)` — reorder an H x W x C
image into a channel-first C x H x W tensor. -/
def numCh (i : Img) : Nat := ((i.headD []).headD []).length

/-- Channel-first transposition of an image (line 176). -/
def transposeCHW (i : Img) : Img :=
  (List.range (numCh i)).map (fun c => i.map (fun row => row.map (fun px => px.getD c 0)))

/-- The stacked per-image mask tensor: `n` instance rows of `height` x `width`
pixels (`torch.zeros((0, h, w))` in the empty case, `torch.stack` otherwise). -/
structure MaskTensor where
  n : Nat
  height : Nat
  width : Nat
  rows : List Mask
deriving DecidableEq

/-- The `Instances` aggregate built at lines 190-202 of the source. -/
structure Instances where
  image_size : Nat × Nat
  gt_classes : List Int
  gt_masks : MaskTensor
  gt_boxes : List Box
deriving DecidableEq

instance : Inhabited Instances := ⟨⟨(0, 0), [], ⟨0, 0, 0, []⟩, []⟩⟩

/-- A value stored in a dataset dict. -/
inductive Value where
  | vNat (n : Nat)
  | vStr (s : String)
  | vPayloads (ps : List AnnPayload)
  | vLabels (ls : List Int)
  | vImage (t : Img)
  | vInstances (i : Instances)
deriving DecidableEq

/-- A dataset record: a Python dict from string keys to values, modelled as an
association list with at most one binding per key. -/
abbrev Dict := List (String × Value)

/-- Dict read (`d[k]`), `none` when the key is absent. -/
def lookup (d : Dict) (k : String) : Option Value :=
  match d with
  | [] => none
  | (k2, v) :: t => if k2 = k then some v else lookup t k

/-- Dict write (`d[k] = v`): replace the existing binding or append a new one. -/
def insertD (d : Dict) (k : String) (v : Value) : Dict :=
  match d with
  | [] => [(k, v)]
  | (k2, v2) :: t => if k2 = k then (k, v) :: t else (k2, v2) :: insertD t k v

/-- Read a key expected to hold a natural number. -/
def getNat (d : Dict) (k : String) : Option Nat :=
  match lookup d k with
  | some (Value.vNat n) => some n
  | _ => none

/-- The mapper's immutable configuration: the composed augmentation pipeline.
Modelled from the spec: applying `self.augmentations` to an `AugInput` yields
the transformed image together with a reusable transform handle whose
`apply_segmentation` re-applies the same geometric operation to a mask
(the `m[:, :, None]` / `[:, :, 0]` channel wrapping is absorbed into the
handle, which here acts on plain 2D masks). -/
structure Mapper where
  augApply : Img → Img × (Mask → Mask)

/-- Failure modes of one mapping call. -/
inductive MapError where
  | keyError (k : String)
  | sizeMismatch
  | invariantViolation
deriving DecidableEq

/-- Modelled from the spec: "validate loaded dimensions match any declared
dimensions in the record (fails with `SizeMismatch` otherwise)" — the external
`detection_utils.check_image_size` at line 165.  A declared `height`/`width`
field that disagrees with the decoded image's dimensions is a mismatch. -/
def sizeOk (d : Dict) (img : Img) : Bool :=
  (match lookup d "height" with
   | some (Value.vNat h) => decide (h = imgH img)
   | _ => true)
  &&
  (match lookup d "width" with
   | some (Value.vNat w) => decide (w = imgW img)
   | _ => true)

/-- Lines 181-188: the per-instance loop body applied to every `(inst, label)`
pair produced by `zip(dataset_dict['instance'], dataset_dict['labels'])` —
decode, merge by sum, downcast, re-apply the transform handle — followed by
the `BitMasks` boolean conversion of lines 198-201. -/
def instRows (tfm : Mask → Mask) (h w : Nat) (pairs : List (AnnPayload × Int)) : List Mask :=
  pairs.map (fun pr => toBool (tfm (mergeParts h w pr.1)))

/-- Lines 190-202: build the `Instances` aggregate.  `gt_classes` always holds
the collected labels; with zero accumulated masks the mask tensor keeps shape
`(0, h, w)` of the transformed image and the box tensor has zero rows,
otherwise the masks are stacked and boxes recomputed from them. -/
def buildInstances (tfm : Mask → Mask) (ish : Nat × Nat) (h w : Nat)
    (ps : List AnnPayload) (ls : List Int) : Instances :=
  if (instRows tfm h w (List.zip ps ls)).isEmpty then
    ⟨ish, (List.zip ps ls).map Prod.snd, ⟨0, ish.1, ish.2, []⟩, []⟩
  else
    ⟨ish, (List.zip ps ls).map Prod.snd,
      ⟨(instRows tfm h w (List.zip ps ls)).length,
        maskH ((instRows tfm h w (List.zip ps ls)).headD []),
        maskW ((instRows tfm h w (List.zip ps ls)).headD []),
        instRows tfm h w (List.zip ps ls)⟩,
      (instRows tfm h w (List.zip ps ls)).map maskBox⟩

/-- Lines 178-203 on the already-augmented state: assert the `instance` list is
non-empty, run the per-instance loop over the zipped pairs, and attach the
built `Instances` under key "instances".  The declared `height`/`width` are
only read inside the loop body (line 182), hence only demanded when the zip is
non-empty, mirroring Python's lazy `KeyError` behaviour. -/
def callBody (tfm : Mask → Mask) (ish : Nat × Nat) (d1 : Dict) : Except MapError Dict :=
  match lookup d1 "instance" with
  | some (Value.vPayloads ps) =>
    if ps.isEmpty then Except.error MapError.invariantViolation
    else
      match lookup d1 "labels" with
      | some (Value.vLabels ls) =>
        if (List.zip ps ls).isEmpty then
          Except.ok (insertD d1 "instances" (Value.vInstances (buildInstances tfm ish 0 0 ps ls)))
        else
          match getNat d1 "height", getNat d1 "width" with
          | some h, some w =>
            Except.ok (insertD d1 "instances" (Value.vInstances (buildInstances tfm ish h w ps ls)))
          | _, _ => Except.error (MapError.keyError "height")
      | _ => Except.error (MapError.keyError "labels")
  | _ => Except.error (MapError.keyError "instance")

/-- Lines 167-176: run the augmentation pipeline on the loaded image, store the
channel-first transformed image tensor under "image", and continue with the
transformed image's shape `(h, w)` (line 172) and the transform handle. -/
def callAug (tr : Img × (Mask → Mask)) (d0 : Dict) : Except MapError Dict :=
  callBody tr.2 (imgH tr.1, imgW tr.1)
    (insertD d0 "image" (Value.vImage (transposeCHW tr.1)))

/-- `LVISInferenceMapperWithGT.__call__` (lines 154-226).  The image read at
line 164 is abstracted by passing the decoded image `img` directly; the
deep copy of line 162 is the identity on values (the aliasing content of that
line is treated separately by `callMut` below). -/
def call (M : Mapper) (img : Img) (d0 : Dict) : Except MapError Dict :=
  if sizeOk d0 img then callAug (M.augApply img) d0
  else Except.error MapError.sizeMismatch

/-- A mask is a rectangular `h` x `w` array. -/
def ShapeHW (h w : Nat) (m : Mask) : Prop :=
  m.length = h ∧ ∀ r, r < h → (m.getD r []).length = w

/-- A column of a mask contains a foreground (nonzero) pixel. -/
def colNZ (m : Mask) (c : Nat) : Prop := ∃ r, pixel m r c ≠ 0

/-- A row of a mask contains a foreground (nonzero) pixel. -/
def rowNZ (m : Mask) (r : Nat) : Prop := ∃ c, pixel m r c ≠ 0

/-- A mask is rectangular: every row has the width of the first row. -/
def Rect (m : Mask) : Prop := ∀ row ∈ m, row.length = maskW m

/-- The spec's tight-box property: the box is
`(min_col, min_row, max_col + 1, max_row + 1)` over the mask's nonzero
pixels. -/
def IsTightBox (m : Mask) (b : Box) : Prop :=
  colNZ m b.1 ∧ (∀ c, colNZ m c → b.1 ≤ c) ∧
  rowNZ m b.2.1 ∧ (∀ r, rowNZ m r → b.2.1 ≤ r) ∧
  (∃ c, colNZ m c ∧ b.2.2.1 = c + 1) ∧ (∀ c, colNZ m c → c + 1 ≤ b.2.2.1) ∧
  (∃ r, rowNZ m r ∧ b.2.2.2 = r + 1) ∧ (∀ r, rowNZ m r → r + 1 ≤ b.2.2.2)

/-- A heap of dataset-dict objects, addressed by allocation id.  This models
the aliasing content of line 162 (`dataset_dict = copy.deepcopy(dataset_dict)`):
the caller's object and the mapper's working copy are distinct heap cells. -/
abbrev Store := List (Nat × Dict)

/-- Heap read. -/
def storeGet (s : Store) (a : Nat) : Option Dict :=
  match s with
  | [] => none
  | (a2, d) :: t => if a2 = a then some d else storeGet t a

/-- Heap write: replace the cell or allocate it. -/
def storeSet (s : Store) (a : Nat) (d : Dict) : Store :=
  match s with
  | [] => [(a, d)]
  | (a2, d2) :: t => if a2 = a then (a, d) :: t else (a2, d2) :: storeSet t a d

/-- A fresh address, strictly larger than every allocated one. -/
def freshAddr (s : Store) : Nat := listMax (s.map Prod.fst) + 1

/-- The mapper call at the heap level: read the caller's dict at `a`,
deep-copy it into a fresh cell (line 162), run the mapping on the copy — every
write of `__call__` targets the copy — and return the copy's address.  A
failure propagates the exception without returning a heap. -/
def callMut (M : Mapper) (img : Img) (s : Store) (a : Nat) :
    Except MapError (Store × Nat) :=
  match storeGet s a with
  | none => Except.error (MapError.keyError "dataset_dict")
  | some d =>
    match call M img d with
    | Except.ok d2 => Except.ok (storeSet s (freshAddr s) d2, freshAddr s)
    | Except.error e => Except.error e

/-- An identity-augmentation mapper configuration used as concrete fixture. -/
def M0 : Mapper := ⟨fun i => (i, fun m => m)⟩

/-- A concrete 1 x 1 single-channel decoded image. -/
def img0 : Img := [[[7]]]

/-- A concrete valid record: one single-part instance covering the pixel. -/
def d0 : Dict :=
  [("file_name", Value.vStr "a.jpg"), ("height", Value.vNat 1), ("width", Value.vNat 1),
   ("instance", Value.vPayloads [[[[1]]]]), ("labels", Value.vLabels [5])]

/-- The output dict of a successful call (empty dict on failure). -/
def outDict (M : Mapper) (img : Img) (d : Dict) : Dict :=
  (call M img d).toOption.getD []

/-- The `Instances` aggregate stored in a dict (default when absent). -/
def instOf (d : Dict) : Instances :=
  match lookup d "instances" with
  | some (Value.vInstances i) => i
  | _ => default

/-- A concrete empty-instance record (C1 fixture). -/
def dEmptyInst : Dict :=
  [("file_name", Value.vStr "a.jpg"), ("height", Value.vNat 1), ("width", Value.vNat 1),
   ("instance", Value.vPayloads []), ("labels", Value.vLabels [])]

/-- A record declaring 2 x 1 against the actual 1 x 1 image (C9 fixture). -/
def dWrongSize : Dict :=
  [("file_name", Value.vStr "a.jpg"), ("height", Value.vNat 2), ("width", Value.vNat 1),
   ("instance", Value.vPayloads [[[[1]]]]), ("labels", Value.vLabels [5])]

/-- A record with two instances, the second decoding to an all-zero mask
(C6 fixture). -/
def dAllZero : Dict :=
  [("file_name", Value.vStr "a.jpg"), ("height", Value.vNat 1), ("width", Value.vNat 1),
   ("instance", Value.vPayloads [[[[1]]], [[[0]]]]), ("labels", Value.vLabels [3, 4])]

/-- A record with a non-empty instance list and empty labels (C7 fixture). -/
def dNoLabels : Dict :=
  [("file_name", Value.vStr "a.jpg"), ("height", Value.vNat 1), ("width", Value.vNat 1),
   ("instance", Value.vPayloads [[[[1]]]]), ("labels", Value.vLabels [])]

/-- A record with two instances against one label (C10 fixture). -/
def dRagged : Dict :=
  [("file_name", Value.vStr "a.jpg"), ("height", Value.vNat 1), ("width", Value.vNat 1),
   ("instance", Value.vPayloads [[[[1]]], [[[1]]]]), ("labels", Value.vLabels [9])]

/-- A one-cell heap holding the fixture record (C8 fixture). -/
def s0 : Store := [(0, d0)]

/-- The heap and result address returned by the concrete heap-level call. -/
def mutRes : Store × Nat := (callMut M0 img0 s0 0).toOption.getD ([], 0)

end LVISMapper

namespace LVISMapper

theorem lookup_insertD_self (d : Dict) (k : String) (v : Value) :
    lookup (insertD d k v) k = some v := by
  induction d with
  | nil => simp [insertD, lookup]
  | cons p t ih =>
    obtain ⟨k2, v2⟩ := p
    by_cases h : k2 = k
    · simp [insertD, lookup, h]
    · simp [insertD, lookup, h, ih]

theorem lookup_insertD_ne (d : Dict) (k k' : String) (v : Value) (h : k ≠ k') :
    lookup (insertD d k v) k' = lookup d k' := by
  induction d with
  | nil => simp [insertD, lookup, h]
  | cons p t ih =>
    obtain ⟨k2, v2⟩ := p
    by_cases h2 : k2 = k
    · subst h2
      simp [insertD, lookup, h]
    · simp [insertD, lookup, h2, ih]

theorem instRows_length (tfm : Mask → Mask) (h w : Nat) (pairs : List (AnnPayload × Int)) :
    (instRows tfm h w pairs).length = pairs.length := by
  simp [instRows]

theorem buildInstances_classes (tfm : Mask → Mask) (ish : Nat × Nat) (h w : Nat)
    (ps : List AnnPayload) (ls : List Int) :
    (buildInstances tfm ish h w ps ls).gt_classes = (List.zip ps ls).map Prod.snd := by
  unfold buildInstances
  split <;> rfl

theorem buildInstances_rows (tfm : Mask → Mask) (ish : Nat × Nat) (h w : Nat)
    (ps : List AnnPayload) (ls : List Int) :
    (buildInstances tfm ish h w ps ls).gt_masks.rows = instRows tfm h w (List.zip ps ls) := by
  unfold buildInstances
  split
  · next he => simp_all [List.isEmpty_iff]
  · rfl

theorem buildInstances_n (tfm : Mask → Mask) (ish : Nat × Nat) (h w : Nat)
    (ps : List AnnPayload) (ls : List Int) :
    (buildInstances tfm ish h w ps ls).gt_masks.n = (List.zip ps ls).length := by
  unfold buildInstances
  split
  · next he =>
    have : instRows tfm h w (List.zip ps ls) = [] := by simpa [List.isEmpty_iff] using he
    have := instRows_length tfm h w (List.zip ps ls)
    simp_all
  · simp [instRows_length]

theorem buildInstances_boxes (tfm : Mask → Mask) (ish : Nat × Nat) (h w : Nat)
    (ps : List AnnPayload) (ls : List Int) :
    (buildInstances tfm ish h w ps ls).gt_boxes =
      (buildInstances tfm ish h w ps ls).gt_masks.rows.map maskBox := by
  unfold buildInstances
  split
  · rfl
  · rfl

theorem buildInstances_empty (tfm : Mask → Mask) (ish : Nat × Nat) (h w : Nat)
    (ps : List AnnPayload) (ls : List Int) (hz : List.zip ps ls = []) :
    buildInstances tfm ish h w ps ls = ⟨ish, [], ⟨0, ish.1, ish.2, []⟩, []⟩ := by
  unfold buildInstances
  rw [hz]
  simp [instRows]

/-- Inversion of a successful `callBody`: the dict held a non-empty payload
list under "instance" and a label list under "labels", and the result is the
input dict with the built `Instances` attached. -/
theorem callBody_ok (tfm : Mask → Mask) (ish : Nat × Nat) (d1 d' : Dict)
    (hc : callBody tfm ish d1 = Except.ok d') :
    ∃ ps ls h w,
      lookup d1 "instance" = some (Value.vPayloads ps) ∧ ps ≠ [] ∧
      lookup d1 "labels" = some (Value.vLabels ls) ∧
      d' = insertD d1 "instances" (Value.vInstances (buildInstances tfm ish h w ps ls)) := by
  unfold callBody at hc
  split at hc
  · next ps hps =>
    split at hc
    · exact absurd hc (by simp)
    · next hne =>
      split at hc
      · next ls hls =>
        split at hc
        · refine ⟨ps, ls, 0, 0, hps, ?_, hls, ?_⟩
          · simpa [List.isEmpty_iff] using hne
          · exact (Except.ok.injEq _ _ ▸ hc).symm
        · split at hc
          · next h w hh hw =>
            refine ⟨ps, ls, h, w, hps, ?_, hls, ?_⟩
            · simpa [List.isEmpty_iff] using hne
            · exact (Except.ok.injEq _ _ ▸ hc).symm
          · exact absurd hc (by simp)
      · exact absurd hc (by simp)
  · exact absurd hc (by simp)

/-- Inversion of a successful `call`: the size check passed, the input dict
held a non-empty "instance" list and a "labels" list, and the output dict is
the input plus the "image" tensor plus the built "instances" aggregate. -/
theorem call_ok (M : Mapper) (img : Img) (d0 d' : Dict)
    (hc : call M img d0 = Except.ok d') :
    sizeOk d0 img = true ∧
    ∃ ps ls h w,
      lookup d0 "instance" = some (Value.vPayloads ps) ∧ ps ≠ [] ∧
      lookup d0 "labels" = some (Value.vLabels ls) ∧
      d' = insertD (insertD d0 "image" (Value.vImage (transposeCHW (M.augApply img).1)))
             "instances"
             (Value.vInstances (buildInstances (M.augApply img).2
               (imgH (M.augApply img).1, imgW (M.augApply img).1) h w ps ls)) := by
  unfold call at hc
  split at hc
  · next hsz =>
    refine ⟨hsz, ?_⟩
    unfold callAug at hc
    obtain ⟨ps, ls, h, w, hps, hne, hls, hd⟩ := callBody_ok _ _ _ _ hc
    rw [lookup_insertD_ne _ _ _ _ (by decide)] at hps
    rw [lookup_insertD_ne _ _ _ _ (by decide)] at hls
    exact ⟨ps, ls, h, w, hps, hne, hls, hd⟩
  · exact absurd hc (by simp)

theorem getD_of_lt {α : Type} (l : List α) (dflt : α) (i : Nat) (h : i < l.length) :
    l.getD i dflt = l[i] := by
  simp [List.getD_eq_getElem?_getD, List.getElem?_eq_getElem h]

theorem getD_of_ge {α : Type} (l : List α) (dflt : α) (i : Nat) (h : l.length ≤ i) :
    l.getD i dflt = dflt := by
  simp [List.getD_eq_getElem?_getD, List.getElem?_eq_none h]

theorem shape_zeroMask (h w : Nat) : ShapeHW h w (zeroMask h w) := by
  constructor
  · simp [zeroMask]
  · intro r hr
    rw [getD_of_lt _ _ _ (by simp [zeroMask, hr])]
    simp [zeroMask]

theorem getD_replicate_zero (n c : Nat) : (List.replicate n (0 : Nat)).getD c 0 = 0 := by
  by_cases hc : c < n
  · rw [getD_of_lt _ _ _ (by simpa using hc)]
    simp
  · rw [getD_of_ge _ _ _ (by simpa using Nat.le_of_not_lt hc)]

theorem pixel_zeroMask (h w r c : Nat) : pixel (zeroMask h w) r c = 0 := by
  unfold pixel zeroMask
  by_cases hr : r < h
  · rw [getD_of_lt (List.replicate h (List.replicate w 0)) [] r (by simpa using hr)]
    simp only [List.getElem_replicate]
    exact getD_replicate_zero w c
  · rw [getD_of_ge (List.replicate h (List.replicate w 0)) [] r
      (by simpa using Nat.le_of_not_lt hr)]
    simp [List.getD]

theorem shape_addMask {h w : Nat} {a b : Mask}
    (ha : ShapeHW h w a) (hb : ShapeHW h w b) : ShapeHW h w (addMask a b) := by
  obtain ⟨ha1, ha2⟩ := ha
  obtain ⟨hb1, hb2⟩ := hb
  have hlen : (addMask a b).length = h := by
    simp [addMask, ha1, hb1]
  refine ⟨hlen, ?_⟩
  intro r hr
  rw [getD_of_lt _ _ _ (by omega)]
  unfold addMask
  rw [List.getElem_zipWith]
  have hra : r < a.length := by omega
  have hrb : r < b.length := by omega
  have h1 := ha2 r hr
  have h2 := hb2 r hr
  rw [getD_of_lt _ _ _ hra] at h1
  rw [getD_of_lt _ _ _ hrb] at h2
  simp [h1, h2]

theorem pixel_addMask {h w : Nat} {a b : Mask} (r c : Nat)
    (ha : ShapeHW h w a) (hb : ShapeHW h w b) (hr : r < h) (hc : c < w) :
    pixel (addMask a b) r c = pixel a r c + pixel b r c := by
  obtain ⟨ha1, ha2⟩ := ha
  obtain ⟨hb1, hb2⟩ := hb
  have hra : r < a.length := by omega
  have hrb : r < b.length := by omega
  have hrab : r < (addMask a b).length := by simp [addMask, ha1, hb1]; omega
  unfold pixel
  rw [getD_of_lt _ _ _ hra, getD_of_lt _ _ _ hrb, getD_of_lt _ _ _ hrab]
  unfold addMask
  rw [List.getElem_zipWith]
  have h1 := ha2 r hr
  have h2 := hb2 r hr
  rw [getD_of_lt _ _ _ hra] at h1
  rw [getD_of_lt _ _ _ hrb] at h2
  have hca : c < a[r].length := by omega
  have hcb : c < b[r].length := by omega
  have hcab : c < (List.zipWith (· + ·) a[r] b[r]).length := by simp; omega
  rw [getD_of_lt _ _ _ hca, getD_of_lt _ _ _ hcb, getD_of_lt _ _ _ hcab]
  rw [List.getElem_zipWith]

theorem shape_foldl_addMask {h w : Nat} (parts : List Mask) (acc : Mask)
    (hparts : ∀ p ∈ parts, ShapeHW h w p) (hacc : ShapeHW h w acc) :
    ShapeHW h w (parts.foldl addMask acc) := by
  induction parts generalizing acc with
  | nil => simpa using hacc
  | cons p t ih =>
    simp only [List.foldl_cons]
    exact ih (addMask acc p) (fun q hq => hparts q (List.mem_cons_of_mem _ hq))
      (shape_addMask hacc (hparts p (List.mem_cons_self _ _)))

theorem pixel_foldl_addMask {h w : Nat} (parts : List Mask) (acc : Mask) (r c : Nat)
    (hparts : ∀ p ∈ parts, ShapeHW h w p) (hacc : ShapeHW h w acc)
    (hr : r < h) (hc : c < w) :
    pixel (parts.foldl addMask acc) r c =
      pixel acc r c + (parts.map (fun p => pixel p r c)).sum := by
  induction parts generalizing acc with
  | nil => simp
  | cons p t ih =>
    simp only [List.foldl_cons, List.map_cons, List.sum_cons]
    rw [ih (addMask acc p)
      (fun q hq => hparts q (List.mem_cons_of_mem _ hq))
      (shape_addMask hacc (hparts p (List.mem_cons_self _ _)))]
    rw [pixel_addMask r c hacc (hparts p (List.mem_cons_self _ _)) hr hc]
    omega

theorem pixel_rowMap (f : Nat → Nat) (m : Mask) (r c : Nat)
    (hr : r < m.length) (hc : c < (m.getD r []).length) :
    pixel (m.map (fun row => row.map f)) r c = f (pixel m r c) := by
  unfold pixel
  rw [getD_of_lt m [] r hr] at hc ⊢
  rw [getD_of_lt (m.map (fun row => row.map f)) [] r (by simpa using hr)]
  rw [List.getElem_map]
  rw [getD_of_lt (m[r].map f) 0 c (by simpa using hc)]
  rw [getD_of_lt m[r] 0 c hc]
  rw [List.getElem_map]

theorem shape_rowMap (f : Nat → Nat) {h w : Nat} {m : Mask} (hm : ShapeHW h w m) :
    ShapeHW h w (m.map (fun row => row.map f)) := by
  obtain ⟨h1, h2⟩ := hm
  refine ⟨by simpa using h1, ?_⟩
  intro r hr
  have hrm : r < m.length := by omega
  rw [getD_of_lt (m.map (fun row => row.map f)) [] r (by simpa using hrm)]
  rw [List.getElem_map]
  have := h2 r hr
  rw [getD_of_lt m [] r hrm] at this
  simpa using this

/-- The merge step computes, pixel by pixel, the sum of the decoded part masks
reduced mod 256 (the `uint8` downcast), with no binarization. -/
theorem pixel_mergeParts {h w : Nat} (parts : List Mask) (r c : Nat)
    (hparts : ∀ p ∈ parts, ShapeHW h w p) (hr : r < h) (hc : c < w) :
    pixel (mergeParts h w parts) r c =
      (parts.map (fun p => pixel p r c)).sum % 256 := by
  have hsh := shape_foldl_addMask parts (zeroMask h w) hparts (shape_zeroMask h w)
  have hpx := pixel_foldl_addMask parts (zeroMask h w) r c hparts (shape_zeroMask h w) hr hc
  rw [pixel_zeroMask] at hpx
  obtain ⟨hs1, hs2⟩ := hsh
  unfold mergeParts
  rw [pixel_rowMap (· % 256) _ r c (by omega) (by rw [hs2 r hr]; omega)]
  rw [hpx]
  simp

theorem shape_mergeParts {h w : Nat} (parts : List Mask)
    (hparts : ∀ p ∈ parts, ShapeHW h w p) : ShapeHW h w (mergeParts h w parts) := by
  have hsh := shape_foldl_addMask parts (zeroMask h w) hparts (shape_zeroMask h w)
  exact shape_rowMap (· % 256) hsh

theorem exists_mem_iff_getD {α : Type} (l : List α) (dflt : α) (P : α → Prop)
    (hd : ¬ P dflt) : (∃ x ∈ l, P x) ↔ ∃ i, P (l.getD i dflt) := by
  constructor
  · rintro ⟨x, hx, hP⟩
    obtain ⟨i, hi, rfl⟩ := List.mem_iff_getElem.mp hx
    exact ⟨i, by rwa [getD_of_lt l dflt i hi]⟩
  · rintro ⟨i, hP⟩
    by_cases hi : i < l.length
    · refine ⟨l[i], List.getElem_mem hi, ?_⟩
      rwa [getD_of_lt l dflt i hi] at hP
    · rw [getD_of_ge l dflt i (Nat.le_of_not_lt hi)] at hP
      exact absurd hP hd

theorem mem_nzCols {m : Mask} {c : Nat} :
    c ∈ nzCols m ↔ c < maskW m ∧ colNZ m c := by
  unfold nzCols colNZ
  rw [List.mem_filter, List.mem_range]
  rw [and_congr_right_iff]
  intro _
  rw [List.any_eq_true]
  constructor
  · rintro ⟨row, hrow, hne⟩
    rw [decide_eq_true_iff] at hne
    exact (exists_mem_iff_getD m [] (fun row => row.getD c 0 ≠ 0) (by simp)).mp
      ⟨row, hrow, hne⟩
  · intro hex
    obtain ⟨row, hrow, hne⟩ :=
      (exists_mem_iff_getD m [] (fun row => row.getD c 0 ≠ 0) (by simp)).mpr hex
    exact ⟨row, hrow, decide_eq_true hne⟩

theorem mem_nzRows {m : Mask} {r : Nat} :
    r ∈ nzRows m ↔ r < maskH m ∧ rowNZ m r := by
  unfold nzRows rowNZ
  rw [List.mem_filter, List.mem_range]
  rw [and_congr_right_iff]
  intro _
  rw [List.any_eq_true]
  constructor
  · rintro ⟨v, hv, hne⟩
    rw [decide_eq_true_iff] at hne
    exact (exists_mem_iff_getD (m.getD r []) 0 (fun v => v ≠ 0) (by simp)).mp ⟨v, hv, hne⟩
  · intro hex
    obtain ⟨v, hv, hne⟩ :=
      (exists_mem_iff_getD (m.getD r []) 0 (fun v => v ≠ 0) (by simp)).mpr hex
    exact ⟨v, hv, decide_eq_true hne⟩

theorem pixel_ne_bounds {m : Mask} (hrect : Rect m) {r c : Nat}
    (h : pixel m r c ≠ 0) : r < maskH m ∧ c < maskW m := by
  unfold pixel at h
  by_cases hr : r < m.length
  · refine ⟨hr, ?_⟩
    rw [getD_of_lt m [] r hr] at h
    by_cases hc : c < m[r].length
    · have := hrect m[r] (List.getElem_mem hr)
      omega
    · rw [getD_of_ge m[r] 0 c (Nat.le_of_not_lt hc)] at h
      exact absurd rfl h
  · rw [getD_of_ge m [] r (Nat.le_of_not_lt hr)] at h
    simp [List.getD] at h

theorem nzCols_sorted (m : Mask) : (nzCols m).Pairwise (· < ·) :=
  List.Pairwise.sublist (List.filter_sublist _) (List.pairwise_lt_range _)

theorem nzRows_sorted (m : Mask) : (nzRows m).Pairwise (· < ·) :=
  List.Pairwise.sublist (List.filter_sublist _) (List.pairwise_lt_range _)

theorem headD_mem {l : List Nat} (h : l ≠ []) : l.headD 0 ∈ l := by
  cases l with
  | nil => exact absurd rfl h
  | cons x t => simp

theorem headD_le_of_mem_sorted {l : List Nat} (hs : l.Pairwise (· < ·))
    {c : Nat} (hc : c ∈ l) : l.headD 0 ≤ c := by
  cases l with
  | nil => simp at hc
  | cons x t =>
    rcases List.mem_cons.mp hc with h | h
    · simp [h]
    · exact Nat.le_of_lt ((List.pairwise_cons.mp hs).1 c h)

theorem le_foldl_max_init (l : List Nat) (a : Nat) : a ≤ l.foldl max a := by
  induction l generalizing a with
  | nil => exact Nat.le_refl a
  | cons x t ih => exact Nat.le_trans (Nat.le_max_left a x) (ih (max a x))

theorem le_foldl_max_of_mem {x : Nat} {l : List Nat} (a : Nat) (h : x ∈ l) :
    x ≤ l.foldl max a := by
  induction l generalizing a with
  | nil => simp at h
  | cons y t ih =>
    rcases List.mem_cons.mp h with h | h
    · subst h
      exact Nat.le_trans (Nat.le_max_right a x) (le_foldl_max_init t (max a x))
    · exact ih (max a y) h

theorem le_listMax_of_mem {x : Nat} {l : List Nat} (h : x ∈ l) : x ≤ listMax l :=
  le_foldl_max_of_mem 0 h

theorem foldl_max_mem_or_init (l : List Nat) (a : Nat) :
    l.foldl max a ∈ l ∨ l.foldl max a = a := by
  induction l generalizing a with
  | nil => exact Or.inr rfl
  | cons x t ih =>
    rcases ih (max a x) with h | h
    · exact Or.inl (List.mem_cons_of_mem _ h)
    · rcases max_choice a x with h2 | h2
      · exact Or.inr (by rw [List.foldl_cons, h, h2])
      · exact Or.inl (by rw [List.foldl_cons, h, h2]; exact List.mem_cons_self _ _)

theorem listMax_mem {l : List Nat} (h : l ≠ []) : listMax l ∈ l := by
  rcases foldl_max_mem_or_init l 0 with h2 | h2
  · exact h2
  · cases l with
    | nil => exact absurd rfl h
    | cons x t =>
      have hx : x ≤ listMax (x :: t) := le_listMax_of_mem (List.mem_cons_self _ _)
      have hz : listMax (x :: t) = 0 := h2
      rw [hz] at hx
      have hx0 : x = 0 := Nat.le_zero.mp hx
      rw [hz, ← hx0]
      exact List.mem_cons_self _ _

/-- The box computed by `maskBox` for a rectangular mask with at least one
foreground pixel is exactly the tight pixel-extent box
`(min_col, min_row, max_col + 1, max_row + 1)` of its nonzero pixels. -/
theorem maskBox_tight (m : Mask) (hrect : Rect m)
    (hnz : ∃ r c, pixel m r c ≠ 0) : IsTightBox m (maskBox m) := by
  obtain ⟨r0, c0, h0⟩ := hnz
  obtain ⟨hr0, hc0⟩ := pixel_ne_bounds hrect h0
  have hcmem : c0 ∈ nzCols m := mem_nzCols.mpr ⟨hc0, r0, h0⟩
  have hrmem : r0 ∈ nzRows m := mem_nzRows.mpr ⟨hr0, c0, h0⟩
  have hxne : nzCols m ≠ [] := List.ne_nil_of_mem hcmem
  have hyne : nzRows m ≠ [] := List.ne_nil_of_mem hrmem
  have hxe : (nzCols m).isEmpty = false := by simpa [List.isEmpty_iff] using hxne
  have hye : (nzRows m).isEmpty = false := by simpa [List.isEmpty_iff] using hyne
  have hbox : maskBox m =
      ((nzCols m).headD 0, (nzRows m).headD 0,
        listMax (nzCols m) + 1, listMax (nzRows m) + 1) := by
    unfold maskBox
    rw [hxe, hye]
    simp
  have hmemx : ∀ c, colNZ m c → c ∈ nzCols m := by
    intro c hcnz
    obtain ⟨r, hrne⟩ := hcnz
    exact mem_nzCols.mpr ⟨(pixel_ne_bounds hrect hrne).2, r, hrne⟩
  have hmemy : ∀ r, rowNZ m r → r ∈ nzRows m := by
    intro r hrnz
    obtain ⟨c, hcne⟩ := hrnz
    exact mem_nzRows.mpr ⟨(pixel_ne_bounds hrect hcne).1, c, hcne⟩
  rw [hbox]
  refine ⟨?_, ?_, ?_, ?_, ?_, ?_, ?_, ?_⟩
  · exact (mem_nzCols.mp (headD_mem hxne)).2
  · intro c hc
    exact headD_le_of_mem_sorted (nzCols_sorted m) (hmemx c hc)
  · exact (mem_nzRows.mp (headD_mem hyne)).2
  · intro r hr
    exact headD_le_of_mem_sorted (nzRows_sorted m) (hmemy r hr)
  · exact ⟨listMax (nzCols m), (mem_nzCols.mp (listMax_mem hxne)).2, rfl⟩
  · intro c hc
    exact Nat.add_le_add_right (le_listMax_of_mem (hmemx c hc)) 1
  · exact ⟨listMax (nzRows m), (mem_nzRows.mp (listMax_mem hyne)).2, rfl⟩
  · intro r hr
    exact Nat.add_le_add_right (le_listMax_of_mem (hmemy r hr)) 1

/-- An all-background mask keeps the zero-initialized degenerate box. -/
theorem maskBox_zero (m : Mask) (hz : ∀ r c, pixel m r c = 0) :
    maskBox m = (0, 0, 0, 0) := by
  have hx : nzCols m = [] := by
    rw [List.eq_nil_iff_forall_not_mem]
    intro c hc
    obtain ⟨_, r, hne⟩ := mem_nzCols.mp hc
    exact hne (hz r c)
  unfold maskBox
  rw [hx]
  simp

theorem storeGet_storeSet_ne (s : Store) (a b : Nat) (d : Dict) (h : a ≠ b) :
    storeGet (storeSet s b d) a = storeGet s a := by
  induction s with
  | nil =>
    have hba : ¬ b = a := fun h2 => h h2.symm
    simp [storeSet, storeGet, hba]
  | cons p t ih =>
    obtain ⟨a2, d2⟩ := p
    by_cases h2 : a2 = b
    · subst h2
      have hba : ¬ a2 = a := fun h3 => h h3.symm
      simp [storeSet, storeGet, hba]
    · simp [storeSet, storeGet, h2, ih]

theorem storeGet_some_mem {s : Store} {a : Nat} {d : Dict}
    (h : storeGet s a = some d) : a ∈ s.map Prod.fst := by
  induction s with
  | nil => simp [storeGet] at h
  | cons p t ih =>
    obtain ⟨a2, d2⟩ := p
    by_cases h2 : a2 = a
    · simp [h2]
    · rw [storeGet, if_neg h2] at h
      exact List.mem_cons_of_mem _ (ih h)

theorem lt_freshAddr_of_some {s : Store} {a : Nat} {d : Dict}
    (h : storeGet s a = some d) : a < freshAddr s := by
  have := le_listMax_of_mem (storeGet_some_mem h)
  unfold freshAddr
  omega

theorem getNat_insertD_ne (d : Dict) (k k' : String) (v : Value) (h : k ≠ k') :
    getNat (insertD d k v) k' = getNat d k' := by
  unfold getNat
  rw [lookup_insertD_ne _ _ _ _ h]

/-- Forward evaluation of `call` when the zipped pair list is empty. -/
theorem call_eval_zip_nil (M : Mapper) (img : Img) (d : Dict)
    (ps : List AnnPayload) (ls : List Int)
    (hsz : sizeOk d img = true)
    (hi : lookup d "instance" = some (Value.vPayloads ps)) (hne : ps ≠ [])
    (hl : lookup d "labels" = some (Value.vLabels ls))
    (hz : List.zip ps ls = []) :
    call M img d = Except.ok
      (insertD (insertD d "image" (Value.vImage (transposeCHW (M.augApply img).1)))
        "instances"
        (Value.vInstances (buildInstances (M.augApply img).2
          (imgH (M.augApply img).1, imgW (M.augApply img).1) 0 0 ps ls))) := by
  have h1 : lookup (insertD d "image" (Value.vImage (transposeCHW (M.augApply img).1)))
      "instance" = some (Value.vPayloads ps) := by
    rw [lookup_insertD_ne _ _ _ _ (by decide)]
    exact hi
  have h2 : lookup (insertD d "image" (Value.vImage (transposeCHW (M.augApply img).1)))
      "labels" = some (Value.vLabels ls) := by
    rw [lookup_insertD_ne _ _ _ _ (by decide)]
    exact hl
  unfold call callAug callBody
  rw [hsz]
  simp only [if_true, h1, h2, hz]
  simp [List.isEmpty_iff, hne]

/-- Forward evaluation of `call` when the zipped pair list is non-empty. -/
theorem call_eval_zip_cons (M : Mapper) (img : Img) (d : Dict)
    (ps : List AnnPayload) (ls : List Int) (hgt wid : Nat)
    (hsz : sizeOk d img = true)
    (hi : lookup d "instance" = some (Value.vPayloads ps)) (hne : ps ≠ [])
    (hl : lookup d "labels" = some (Value.vLabels ls))
    (hz : List.zip ps ls ≠ [])
    (hh : getNat d "height" = some hgt) (hw : getNat d "width" = some wid) :
    call M img d = Except.ok
      (insertD (insertD d "image" (Value.vImage (transposeCHW (M.augApply img).1)))
        "instances"
        (Value.vInstances (buildInstances (M.augApply img).2
          (imgH (M.augApply img).1, imgW (M.augApply img).1) hgt wid ps ls))) := by
  have h1 : lookup (insertD d "image" (Value.vImage (transposeCHW (M.augApply img).1)))
      "instance" = some (Value.vPayloads ps) := by
    rw [lookup_insertD_ne _ _ _ _ (by decide)]
    exact hi
  have h2 : lookup (insertD d "image" (Value.vImage (transposeCHW (M.augApply img).1)))
      "labels" = some (Value.vLabels ls) := by
    rw [lookup_insertD_ne _ _ _ _ (by decide)]
    exact hl
  have h3 : getNat (insertD d "image" (Value.vImage (transposeCHW (M.augApply img).1)))
      "height" = some hgt := by
    rw [getNat_insertD_ne _ _ _ _ (by decide)]
    exact hh
  have h4 : getNat (insertD d "image" (Value.vImage (transposeCHW (M.augApply img).1)))
      "width" = some wid := by
    rw [getNat_insertD_ne _ _ _ _ (by decide)]
    exact hw
  unfold call callAug callBody
  rw [hsz]
  simp only [if_true, h1, h2, h3, h4]
  simp [List.isEmpty_iff, hne, hz]

/-- C1: a record whose `instance` sequence is empty makes the mapper fail the
hard assertion at line 178 (`assert len(dataset_dict['instance']) > 0`,
the spec's `InvariantViolation`), and no output record is produced. -/
theorem claim1_empty_instance_raises (M : Mapper) (img : Img) (d : Dict)
    (hsz : sizeOk d img = true)
    (hi : lookup d "instance" = some (Value.vPayloads [])) :
    call M img d = Except.error MapError.invariantViolation := by
  have h1 : lookup (insertD d "image" (Value.vImage (transposeCHW (M.augApply img).1)))
      "instance" = some (Value.vPayloads []) := by
    rw [lookup_insertD_ne _ _ _ _ (by decide)]
    exact hi
  unfold call callAug callBody
  rw [hsz]
  simp only [if_true, h1]
  simp

theorem claim1_empty_instance_raises_check :
    call M0 img0 dEmptyInst = Except.error MapError.invariantViolation :=
  claim1_empty_instance_raises M0 img0 dEmptyInst (by decide) (by decide)

/-- C9: a record whose declared `height`/`width` disagree with the decoded
image's dimensions fails the size validation (line 165, the spec's
`SizeMismatch`) before any mask processing, and no output record is
produced. -/
theorem claim9_size_mismatch_raises (M : Mapper) (img : Img) (d : Dict)
    (hgt wid : Nat)
    (hh : lookup d "height" = some (Value.vNat hgt))
    (hw : lookup d "width" = some (Value.vNat wid))
    (hmis : hgt ≠ imgH img ∨ wid ≠ imgW img) :
    call M img d = Except.error MapError.sizeMismatch := by
  have hsz : sizeOk d img = false := by
    unfold sizeOk
    rw [hh, hw]
    rcases hmis with hm | hm
    · simp [hm]
    · simp [hm]
  unfold call
  rw [hsz]
  simp

theorem claim9_size_mismatch_raises_check :
    call M0 img0 dWrongSize = Except.error MapError.sizeMismatch :=
  claim9_size_mismatch_raises M0 img0 dWrongSize 2 1 (by decide) (by decide)
    (Or.inl (by decide))

/-- C5: in every successfully mapped record the stacked mask tensor has exactly
as many instance rows as the classes tensor has entries. -/
theorem claim5_masks_classes_aligned (M : Mapper) (img : Img) (d d' : Dict)
    (I : Instances)
    (hc : call M img d = Except.ok d')
    (hI : lookup d' "instances" = some (Value.vInstances I)) :
    I.gt_masks.n = I.gt_classes.length := by
  obtain ⟨-, ps, ls, hgt, wid, -, -, -, hd⟩ := call_ok M img d d' hc
  subst hd
  rw [lookup_insertD_self] at hI
  have hBI := Value.vInstances.inj (Option.some.inj hI)
  subst hBI
  rw [buildInstances_n, buildInstances_classes]
  simp

/-- C5 witness: the concrete fixture record has matching counts. -/
theorem claim5_masks_classes_aligned_check :
    (instOf (outDict M0 img0 d0)).gt_masks.n =
      (instOf (outDict M0 img0 d0)).gt_classes.length :=
  claim5_masks_classes_aligned M0 img0 d0 (outDict M0 img0 d0)
    (instOf (outDict M0 img0 d0)) (by rfl) (by rfl)

/-- C3 counterexample: on a concrete record the successful call returns a dict
that still contains the raw keys `instance` and `labels`, so they are not
absent from the returned mapping as the claim states. -/
theorem claim3_raw_fields_kept_cex :
    ((call M0 img0 d0).toOption.bind (fun d => lookup d "instance")) =
        some (Value.vPayloads [[[[1]]]]) ∧
    ((call M0 img0 d0).toOption.bind (fun d => lookup d "labels")) =
        some (Value.vLabels [5]) := by
  decide

/-- C3 (amended): every successfully mapped record gains the derived `image`
tensor and `instances` aggregate, but the raw `instance` and `labels` fields
are retained unchanged rather than removed. -/
theorem claim3_output_schema_amended (M : Mapper) (img : Img) (d d' : Dict)
    (hc : call M img d = Except.ok d') :
    (∃ t, lookup d' "image" = some (Value.vImage t)) ∧
    (∃ I, lookup d' "instances" = some (Value.vInstances I)) ∧
    lookup d' "instance" = lookup d "instance" ∧
    lookup d' "labels" = lookup d "labels" := by
  obtain ⟨-, ps, ls, hgt, wid, hps, -, hls, hd⟩ := call_ok M img d d' hc
  subst hd
  refine ⟨⟨transposeCHW (M.augApply img).1, ?_⟩,
    ⟨buildInstances (M.augApply img).2
      (imgH (M.augApply img).1, imgW (M.augApply img).1) hgt wid ps ls, ?_⟩, ?_, ?_⟩
  · rw [lookup_insertD_ne _ _ _ _ (by decide), lookup_insertD_self]
  · rw [lookup_insertD_self]
  · rw [lookup_insertD_ne _ _ _ _ (by decide), lookup_insertD_ne _ _ _ _ (by decide)]
  · rw [lookup_insertD_ne _ _ _ _ (by decide), lookup_insertD_ne _ _ _ _ (by decide)]

/-- C3 (amended) witness at the concrete fixture record. -/
theorem claim3_output_schema_amended_check :
    (∃ t, lookup (outDict M0 img0 d0) "image" = some (Value.vImage t)) ∧
    (∃ I, lookup (outDict M0 img0 d0) "instances" = some (Value.vInstances I)) ∧
    lookup (outDict M0 img0 d0) "instance" = lookup d0 "instance" ∧
    lookup (outDict M0 img0 d0) "labels" = lookup d0 "labels" :=
  claim3_output_schema_amended M0 img0 d0 (outDict M0 img0 d0) (by rfl)

/-- C2 counterexample: two overlapping single-pixel binary parts merge to
pixel value 2, not to a binarized 1 — the merged per-instance mask holds a
value other than 0 or 1, so the merge step is not sum-then-binarize. -/
theorem claim2_merge_not_binarized_cex :
    mergeParts 1 1 [[[1]], [[1]]] = [[2]] ∧
    pixel (mergeParts 1 1 [[[1]], [[1]]]) 0 0 ≠ 0 ∧
    pixel (mergeParts 1 1 [[[1]], [[1]]]) 0 0 ≠ 1 := by
  decide

/-- C2 (amended): the merge step computes the elementwise sum of the decoded
part masks downcast to uint8 (mod 256) with no binarization, so overlapping
parts can leave values above 1; for two binary non-overlapping parts the
merged mask's foreground equals the union of the parts' foregrounds and every
pixel is 0 or 1. -/
theorem claim2_merge_sum_mod256_union (h w : Nat) (p q : Mask) (r c : Nat)
    (hp : ShapeHW h w p) (hq : ShapeHW h w q)
    (hbp : ∀ r2, r2 < h → ∀ c2, c2 < w → pixel p r2 c2 ≤ 1)
    (hbq : ∀ r2, r2 < h → ∀ c2, c2 < w → pixel q r2 c2 ≤ 1)
    (hdisj : ∀ r2, r2 < h → ∀ c2, c2 < w → pixel p r2 c2 = 0 ∨ pixel q r2 c2 = 0)
    (hr : r < h) (hc : c < w) :
    (∀ parts : List Mask, (∀ m ∈ parts, ShapeHW h w m) →
      pixel (mergeParts h w parts) r c = (parts.map (fun m => pixel m r c)).sum % 256) ∧
    pixel (mergeParts h w [p, q]) r c = pixel p r c + pixel q r c ∧
    (pixel (mergeParts h w [p, q]) r c ≠ 0 ↔ (pixel p r c ≠ 0 ∨ pixel q r c ≠ 0)) ∧
    (pixel (mergeParts h w [p, q]) r c = 0 ∨ pixel (mergeParts h w [p, q]) r c = 1) := by
  have hgen : ∀ parts : List Mask, (∀ m ∈ parts, ShapeHW h w m) →
      pixel (mergeParts h w parts) r c = (parts.map (fun m => pixel m r c)).sum % 256 :=
    fun parts hparts => pixel_mergeParts parts r c hparts hr hc
  have hpq : pixel (mergeParts h w [p, q]) r c = (pixel p r c + pixel q r c) % 256 := by
    have hps : ∀ m ∈ [p, q], ShapeHW h w m := by
      intro m hm
      rcases List.mem_cons.mp hm with h1 | h1
      · rw [h1]; exact hp
      · rcases List.mem_cons.mp h1 with h2 | h2
        · rw [h2]; exact hq
        · simp at h2
    have := hgen [p, q] hps
    simpa using this
  have h1 := hbp r hr c hc
  have h2 := hbq r hr c hc
  have h3 := hdisj r hr c hc
  refine ⟨hgen, ?_, ?_, ?_⟩
  · omega
  · omega
  · omega

/-- C2 (amended) witness: two non-overlapping binary 1 x 2 parts. -/
theorem claim2_merge_sum_mod256_union_check :
    (∀ parts : List Mask, (∀ m ∈ parts, ShapeHW 1 2 m) →
      pixel (mergeParts 1 2 parts) 0 0 = (parts.map (fun m => pixel m 0 0)).sum % 256) ∧
    pixel (mergeParts 1 2 [[[1, 0]], [[0, 1]]]) 0 0 =
      pixel [[1, 0]] 0 0 + pixel [[0, 1]] 0 0 ∧
    (pixel (mergeParts 1 2 [[[1, 0]], [[0, 1]]]) 0 0 ≠ 0 ↔
      (pixel [[1, 0]] 0 0 ≠ 0 ∨ pixel [[0, 1]] 0 0 ≠ 0)) ∧
    (pixel (mergeParts 1 2 [[[1, 0]], [[0, 1]]]) 0 0 = 0 ∨
      pixel (mergeParts 1 2 [[[1, 0]], [[0, 1]]]) 0 0 = 1) :=
  claim2_merge_sum_mod256_union 1 2 [[1, 0]] [[0, 1]] 0 0
    (by constructor <;> decide) (by constructor <;> decide)
    (by decide) (by decide) (by decide) (by decide) (by decide)

/-- C4: for every successfully mapped record the output boxes are recomputed
from the mask rows (`gt_boxes = map maskBox rows`), and for any rectangular
mask row with a nonzero pixel the computed box is exactly the tight
pixel-extent box `(min_col, min_row, max_col + 1, max_row + 1)` of its nonzero
pixels. -/
theorem claim4_boxes_tight_from_masks (M : Mapper) (img : Img) (d d' : Dict)
    (I : Instances)
    (hc : call M img d = Except.ok d')
    (hI : lookup d' "instances" = some (Value.vInstances I)) :
    I.gt_boxes = I.gt_masks.rows.map maskBox ∧
    ∀ m ∈ I.gt_masks.rows, Rect m → (∃ r c, pixel m r c ≠ 0) →
      IsTightBox m (maskBox m) := by
  obtain ⟨-, ps, ls, hgt, wid, -, -, -, hd⟩ := call_ok M img d d' hc
  subst hd
  rw [lookup_insertD_self] at hI
  have hBI := Value.vInstances.inj (Option.some.inj hI)
  subst hBI
  refine ⟨buildInstances_boxes _ _ _ _ _ _, ?_⟩
  intro m _ hrect hnz
  exact maskBox_tight m hrect hnz

/-- C4 witness at the concrete fixture record. -/
theorem claim4_boxes_tight_from_masks_check :
    (instOf (outDict M0 img0 d0)).gt_boxes =
      (instOf (outDict M0 img0 d0)).gt_masks.rows.map maskBox ∧
    ∀ m ∈ (instOf (outDict M0 img0 d0)).gt_masks.rows,
      Rect m → (∃ r c, pixel m r c ≠ 0) → IsTightBox m (maskBox m) :=
  claim4_boxes_tight_from_masks M0 img0 d0 (outDict M0 img0 d0)
    (instOf (outDict M0 img0 d0)) (by rfl) (by rfl)

/-- C6: every zipped (instance, label) pair contributes exactly one mask row
and one class entry — an all-zero merged mask is kept, not dropped — and an
all-zero mask row gets the degenerate zero-area box `(0, 0, 0, 0)`. -/
theorem claim6_allzero_mask_kept (M : Mapper) (img : Img) (d d' : Dict)
    (I : Instances)
    (hc : call M img d = Except.ok d')
    (hI : lookup d' "instances" = some (Value.vInstances I)) :
    (∃ ps ls hgt wid,
      lookup d "instance" = some (Value.vPayloads ps) ∧
      lookup d "labels" = some (Value.vLabels ls) ∧
      I.gt_masks.rows =
        (List.zip ps ls).map
          (fun pr => toBool ((M.augApply img).2 (mergeParts hgt wid pr.1))) ∧
      I.gt_classes = (List.zip ps ls).map Prod.snd ∧
      I.gt_masks.rows.length = (List.zip ps ls).length) ∧
    I.gt_boxes = I.gt_masks.rows.map maskBox ∧
    (∀ m, (∀ r c, pixel m r c = 0) → maskBox m = (0, 0, 0, 0)) := by
  obtain ⟨-, ps, ls, hgt, wid, hps, -, hls, hd⟩ := call_ok M img d d' hc
  subst hd
  rw [lookup_insertD_self] at hI
  have hBI := Value.vInstances.inj (Option.some.inj hI)
  subst hBI
  refine ⟨⟨ps, ls, hgt, wid, hps, hls, ?_, ?_, ?_⟩,
    buildInstances_boxes _ _ _ _ _ _, ?_⟩
  · rw [buildInstances_rows]
    rfl
  · exact buildInstances_classes _ _ _ _ _ _
  · rw [buildInstances_rows, instRows_length]
  · intro m hm
    exact maskBox_zero m hm

theorem claim6_allzero_mask_kept_check :
    (∃ ps ls hgt wid,
      lookup dAllZero "instance" = some (Value.vPayloads ps) ∧
      lookup dAllZero "labels" = some (Value.vLabels ls) ∧
      (instOf (outDict M0 img0 dAllZero)).gt_masks.rows =
        (List.zip ps ls).map
          (fun pr => toBool ((M0.augApply img0).2 (mergeParts hgt wid pr.1))) ∧
      (instOf (outDict M0 img0 dAllZero)).gt_classes = (List.zip ps ls).map Prod.snd ∧
      (instOf (outDict M0 img0 dAllZero)).gt_masks.rows.length =
        (List.zip ps ls).length) ∧
    (instOf (outDict M0 img0 dAllZero)).gt_boxes =
      (instOf (outDict M0 img0 dAllZero)).gt_masks.rows.map maskBox ∧
    (∀ m, (∀ r c, pixel m r c = 0) → maskBox m = (0, 0, 0, 0)) :=
  claim6_allzero_mask_kept M0 img0 dAllZero (outDict M0 img0 dAllZero)
    (instOf (outDict M0 img0 dAllZero)) (by rfl) (by rfl)

/-- C7: when the per-instance loop accumulates zero masks the mapper still
returns successfully, with a mask tensor of shape `(0, H, W)` — `H`, `W` the
transformed image's dimensions — and a zero-row box tensor; the shapes are
present, not null. -/
theorem claim7_empty_batch_valid (M : Mapper) (img : Img) (d : Dict)
    (ps : List AnnPayload) (ls : List Int)
    (hsz : sizeOk d img = true)
    (hi : lookup d "instance" = some (Value.vPayloads ps)) (hne : ps ≠ [])
    (hl : lookup d "labels" = some (Value.vLabels ls))
    (hz : List.zip ps ls = []) :
    ∃ d', call M img d = Except.ok d' ∧
      lookup d' "instances" = some (Value.vInstances
        ⟨(imgH (M.augApply img).1, imgW (M.augApply img).1), [],
         ⟨0, imgH (M.augApply img).1, imgW (M.augApply img).1, []⟩, []⟩) := by
  have hcall := call_eval_zip_nil M img d ps ls hsz hi hne hl hz
  refine ⟨_, hcall, ?_⟩
  rw [buildInstances_empty _ _ _ _ _ _ hz]
  exact lookup_insertD_self _ _ _

theorem claim7_empty_batch_valid_check :
    ∃ d', call M0 img0 dNoLabels = Except.ok d' ∧
      lookup d' "instances" = some (Value.vInstances
        ⟨(imgH (M0.augApply img0).1, imgW (M0.augApply img0).1), [],
         ⟨0, imgH (M0.augApply img0).1, imgW (M0.augApply img0).1, []⟩, []⟩) :=
  claim7_empty_batch_valid M0 img0 dNoLabels [[[[1]]]] []
    (by decide) (by decide) (by decide) (by decide) (by decide)

/-- C8: the caller's record is never mutated — the call deep-copies the record
into a fresh heap cell at entry, every write targets that copy, and every heap
cell other than the returned fresh one is unchanged after the call. -/
theorem claim8_caller_record_unchanged (M : Mapper) (img : Img) (s s' : Store)
    (a b : Nat) (d : Dict)
    (hd : storeGet s a = some d)
    (hc : callMut M img s a = Except.ok (s', b)) :
    storeGet s' a = some d ∧ ∀ c, c ≠ b → storeGet s' c = storeGet s c := by
  have hne : a ≠ freshAddr s := Nat.ne_of_lt (lt_freshAddr_of_some hd)
  unfold callMut at hc
  rw [hd] at hc
  have hc2 : (match call M img d with
      | Except.ok d2 => Except.ok (storeSet s (freshAddr s) d2, freshAddr s)
      | Except.error e => (Except.error e : Except MapError (Store × Nat))) =
      Except.ok (s', b) := hc
  clear hc
  cases hcall : call M img d with
  | ok d2 =>
    rw [hcall] at hc2
    simp only [] at hc2
    have hpair := Except.ok.inj hc2
    obtain ⟨hs1, hs2⟩ := Prod.mk.inj hpair
    subst hs1
    subst hs2
    refine ⟨?_, ?_⟩
    · rw [storeGet_storeSet_ne s a (freshAddr s) d2 hne]
      exact hd
    · intro c hcb
      exact storeGet_storeSet_ne s c (freshAddr s) d2 hcb
  | error e =>
    rw [hcall] at hc2
    simp at hc2

theorem claim8_caller_record_unchanged_check :
    storeGet mutRes.1 0 = some d0 ∧
    ∀ c, c ≠ mutRes.2 → storeGet mutRes.1 c = storeGet s0 c :=
  claim8_caller_record_unchanged M0 img0 s0 mutRes.1 0 mutRes.2 d0 (by rfl) (by rfl)

/-- C10: when `instance` and `labels` have different lengths the mapper raises
no error — it processes exactly the zipped `min(len, len)` pairs and ignores
the surplus; with a non-empty `instance` list and empty `labels` it returns
the empty batch. -/
theorem claim10_zip_truncates (M : Mapper) (img : Img) (d : Dict)
    (ps : List AnnPayload) (ls : List Int) (hgt wid : Nat)
    (hsz : sizeOk d img = true)
    (hi : lookup d "instance" = some (Value.vPayloads ps)) (hne : ps ≠ [])
    (hl : lookup d "labels" = some (Value.vLabels ls))
    (hh : getNat d "height" = some hgt) (hw : getNat d "width" = some wid) :
    ∃ d' I, call M img d = Except.ok d' ∧
      lookup d' "instances" = some (Value.vInstances I) ∧
      I.gt_classes = (List.zip ps ls).map Prod.snd ∧
      I.gt_classes.length = min ps.length ls.length ∧
      I.gt_masks.n = min ps.length ls.length ∧
      (ls = [] → I.gt_masks.rows = [] ∧ I.gt_boxes = []) := by
  by_cases hz : List.zip ps ls = []
  · have hcall := call_eval_zip_nil M img d ps ls hsz hi hne hl hz
    refine ⟨_, _, hcall, lookup_insertD_self _ _ _, ?_, ?_, ?_, ?_⟩
    · exact buildInstances_classes _ _ _ _ _ _
    · rw [buildInstances_classes]
      simp [List.length_zip]
    · rw [buildInstances_n, List.length_zip]
    · intro hls
      constructor
      · rw [buildInstances_rows, hz]
        rfl
      · rw [buildInstances_boxes, buildInstances_rows, hz]
        rfl
  · have hcall := call_eval_zip_cons M img d ps ls hgt wid hsz hi hne hl hz hh hw
    refine ⟨_, _, hcall, lookup_insertD_self _ _ _, ?_, ?_, ?_, ?_⟩
    · exact buildInstances_classes _ _ _ _ _ _
    · rw [buildInstances_classes]
      simp [List.length_zip]
    · rw [buildInstances_n, List.length_zip]
    · intro hls
      subst hls
      exact absurd List.zip_nil_right hz

theorem claim10_zip_truncates_check :
    ∃ d' I, call M0 img0 dRagged = Except.ok d' ∧
      lookup d' "instances" = some (Value.vInstances I) ∧
      I.gt_classes = (List.zip [[[[1]]], [[[1]]]] [(9 : Int)]).map Prod.snd ∧
      I.gt_classes.length = min 2 1 ∧
      I.gt_masks.n = min 2 1 ∧
      ([(9 : Int)] = [] → I.gt_masks.rows = [] ∧ I.gt_boxes = []) := by
  have h := claim10_zip_truncates M0 img0 dRagged [[[[1]]], [[[1]]]] [(9 : Int)] 1 1
    (by decide) (by decide) (by decide) (by decide) (by decide) (by decide)
  simpa using h

end LVISMapper
